import Mathlib

/-!
Shallow embedding of the grid-raycasting renderer
(`examples/raycaster/raycaster/raycaster.py`, class `RayCaster`).

Numeric model: the Python/numpy code computes with floating point
(float16 buffers, Python floats); this development embeds those values as
exact rationals `ℚ`.  The two genuinely non-rational ingredients are
modelled explicitly:

* IEEE infinities/NaNs arise only on the per-axis DDA accumulators when a
  ray-direction component is exactly zero (`1/0 = inf`, `0 * inf = nan`);
  those accumulators are embedded as `Option ℚ` with `none` for the
  NaN/infinite case, and the IEEE comparison `nan < x = x < nan = false`
  is embedded in `oltB`.
* the exponential `np.e ** x` used for distance fog is abstracted as a
  function parameter `expQ : ℚ → ℚ`; every theorem quantifies over it.

Integer casts (`int(...)`, `astype(int)`, assignment into the `int16`
ray-position buffer) truncate toward zero and are embedded as `truncZ`.
Python's `>>` 1 on ints is floor division by 2, embedded as `Int.fdiv`.
-/

/-- An RGB color triple (the map-level content of one pixel of the
`(2*height, width, 3)` uint8 color buffer). -/
abbrev Color : Type := ℕ × ℕ × ℕ

/-- Default color used for out-of-range list reads in statements. -/
def dfltColor : Color := (0, 0, 0)

/-- Truncation toward zero, the semantics of Python `int(...)`, of numpy
`.astype(int)` and of assignment of floats into an integer ndarray. -/
def truncZ (q : ℚ) : ℤ := if q < 0 then ⌈q⌉ else ⌊q⌋

/-- Fractional part `q % 1` (numpy `mod` with a positive modulus returns a
value in `[0, 1)`, i.e. the floor-based fractional part). -/
def fracPart (q : ℚ) : ℚ := q - ⌊q⌋

/-- `np.sign` of a ray-angle component, cast to an integer step
(`np.sign(rotated_angles, out=steps, casting="unsafe")`). -/
def sgnq (q : ℚ) : ℤ := if q < 0 then -1 else if q = 0 then 0 else 1

/-- `np.heaviside(steps, 1.0)`: `0` for negative steps, `1` for zero
(second argument) and positive steps. -/
def heavisideQ (s : ℤ) : ℚ := if s < 0 then 0 else 1

/-- Per-channel shading: multiply by the fog factor, clip into `[0, 255]`
(`np.clip(texture_column, 0, 255, ...)`) and store into the uint8 buffer
(the float→uint8 store truncates; the clipped value is nonnegative, so
truncation is `⌊·⌋`). -/
def shadeChannel (c : ℕ) (f : ℚ) : ℕ := (⌊min 255 (max 0 ((c : ℚ) * f))⌋).toNat

/-- Shade a sampled texture color by a fog factor, channelwise. -/
def shadeColor (c : Color) (f : ℚ) : Color :=
  (shadeChannel c.1 f, shadeChannel c.2.1 f, shadeChannel c.2.2 f)

/-- A wall/floor/ceiling texture: an `h × w` color image.  `pix` is total
(the renderer only ever samples indices that the caster derives from
fractional positions in `[0,1)`). -/
structure Texture where
  h : ℕ
  w : ℕ
  pix : ℕ → ℕ → Color

/-- Fallback texture for out-of-range texture-list reads (the code relies
on the documented invariant that every non-zero map value has a texture;
the fallback only keeps the embedding total). -/
def dfltTexture : Texture := ⟨1, 1, fun _ _ => dfltColor⟩

/-- The occupancy map: an `h × w` grid of cell codes, `0` = open space,
`v > 0` = wall with texture `v - 1`. -/
structure GameMap where
  h : ℕ
  w : ℕ
  cell : ℕ → ℕ → ℕ

/-- numpy indexing semantics for `map[tuple(ray_pos)]`: an index in
`[-n, n)` is valid (negative indices wrap by `+ n`), anything else raises
`IndexError`, embedded as `none`. -/
def mapLookup (m : GameMap) (y x : ℤ) : Option ℕ :=
  let y' : ℤ := if y < 0 then y + m.h else y
  let x' : ℤ := if x < 0 then x + m.w else x
  if 0 ≤ y' ∧ y' < m.h ∧ 0 ≤ x' ∧ x' < m.w then
    some (m.cell y'.toNat x'.toNat)
  else none

/-- A raw grid coordinate is inside the map's bounds. -/
def inGrid (m : GameMap) (p : ℤ × ℤ) : Prop :=
  0 ≤ p.1 ∧ p.1 < m.h ∧ 0 ≤ p.2 ∧ p.2 < m.w

instance (m : GameMap) (p : ℤ × ℤ) : Decidable (inGrid m p) := by
  unfold inGrid; infer_instance

/-- The camera protocol: a continuous position and the 2×2 matrix
`camera.plane` whose first row is the view-direction vector and whose
second row is the camera-plane (field-of-view) vector, exactly as consumed
by `np.dot(self._ray_angles, camera.plane)`.  Axis 0 is `y` (map row),
axis 1 is `x` (map column). -/
structure Camera where
  posY : ℚ
  posX : ℚ
  dirY : ℚ
  dirX : ℚ
  planeY : ℚ
  planeX : ℚ

/-- The ray direction for interpolation parameter `t`: row `[1, t]` of
`_ray_angles` times the 2×2 matrix `camera.plane`, i.e.
`direction + t * plane` componentwise. -/
def rayAngle (cam : Camera) (t : ℚ) : ℚ × ℚ :=
  (cam.dirY + t * cam.planeY, cam.dirX + t * cam.planeX)

/-- `np.linspace(-1, 1, width)[i]` (default `endpoint=True`): the
interpolation parameter of screen column `i`. -/
def columnT (w i : ℕ) : ℚ :=
  if w ≤ 1 then -1 else -1 + 2 * i / ((w : ℚ) - 1)

/-- The per-column ray table `_ray_angles` built by `resize`:
`np.ones((width, 2))` with column 1 overwritten by `linspace(-1, 1, width)`. -/
def rayAngleTable (w : ℕ) : List (ℚ × ℚ) :=
  (List.range w).map fun i => (1, columnT w i)

/-- `delta = |1 / ray_angle|` per axis; division by zero produces an IEEE
infinity, embedded as `none`. -/
def deltaOf (a : ℚ) : Option ℚ :=
  if a = 0 then none else some |1 / a|

/-- The initial per-axis side distance
`(heaviside(step, 1) - pos % 1) * step * delta`.  When the angle component
is zero the float value is `0 * inf = nan`, embedded as `none`. -/
def sideInit (pos a : ℚ) : Option ℚ :=
  match deltaOf a with
  | none => none
  | some dl => some (((heavisideQ (sgnq a) - fracPart pos) * (sgnq a : ℚ)) * dl)

/-- IEEE `<` on the side accumulators: any comparison against NaN is
false. -/
def oltB : Option ℚ → Option ℚ → Bool
  | some a, some b => decide (a < b)
  | _, _ => false

/-- `sides[side] += delta[side]`: NaN absorbs (`nan + inf = nan`); by the
invariant of the loop the two arguments are `some`/`none` together. -/
def oadd : Option ℚ → Option ℚ → Option ℚ
  | some a, some b => some (a + b)
  | _, _ => none

/-- The mutable per-ray state of the DDA loop: the integer ray position
(`_pos_int`, int16) and the per-axis accumulated side distances. -/
structure DDAState where
  posY : ℤ
  posX : ℤ
  sY : Option ℚ
  sX : Option ℚ
  deriving DecidableEq

/-- One hop of the DDA loop body:
`side = 0 if sides[0] < sides[1] else 1; sides[side] += delta[side];`
`ray_pos[side] += step[side]`.  Returns the chosen side and the updated
state. -/
def ddaStep (stepY stepX : ℤ) (dY dX : Option ℚ) (st : DDAState) : ℕ × DDAState :=
  if oltB st.sY st.sX then
    (0, { st with sY := oadd st.sY dY, posY := st.posY + stepY })
  else
    (1, { st with sX := oadd st.sX dX, posX := st.posX + stepX })

/-- Outcome of the casting loop: numpy `IndexError` on an invalid map
index, fall-through of the `for … else` (no wall within the hop budget),
or a hit `(side, state, texture_index)`. -/
inductive CastOutcome where
  | indexError : CastOutcome
  | noHit : CastOutcome
  | hit : ℕ → DDAState → ℕ → CastOutcome
  deriving DecidableEq

/-- The casting loop `for _ in range(HOPS): …`, with the list of raw map
coordinates passed to `map[tuple(ray_pos)]` recorded alongside the
outcome. -/
def castLoop (m : GameMap) (stepY stepX : ℤ) (dY dX : Option ℚ) :
    ℕ → DDAState → List (ℤ × ℤ) × CastOutcome
  | 0, _ => ([], CastOutcome.noHit)
  | fuel + 1, st =>
    let s' := ddaStep stepY stepX dY dX st
    let p : ℤ × ℤ := (s'.2.posY, s'.2.posX)
    match mapLookup m p.1 p.2 with
    | none => ([p], CastOutcome.indexError)
    | some v =>
      if v = 0 then
        let rest := castLoop m stepY stepX dY dX fuel s'.2
        (p :: rest.1, rest.2)
      else
        ([p], CastOutcome.hit s'.1 s'.2 v)

/-- `HOPS = 20`: how far rays are cast. -/
def HOPS : ℕ := 20

/-- The casting phase of `cast_ray` for interpolation parameter `t`:
initialize the integer ray position from the camera position (int16
truncation), the steps, deltas and initial side distances, and run the
DDA loop for `HOPS` hops. -/
def castDDA (m : GameMap) (cam : Camera) (t : ℚ) : List (ℤ × ℤ) × CastOutcome :=
  let aY := (rayAngle cam t).1
  let aX := (rayAngle cam t).2
  let st0 : DDAState :=
    { posY := truncZ cam.posY, posX := truncZ cam.posX,
      sY := sideInit cam.posY aY, sX := sideInit cam.posX aX }
  castLoop m (sgnq aY) (sgnq aX) (deltaOf aY) (deltaOf aX) HOPS st0

/-- Perpendicular distance from wall to camera plane:
`(ray_pos[side] - camera_pos[side] + (0 if step[side] == 1 else 1)) / ray_angle[side]`,
with `step = sign(ray_angle)`.  (In ℚ a division by zero yields `0`; every
theorem touching a zero angle component carries that as a hypothesis.) -/
def hitDistance (cam : Camera) (aY aX : ℚ) (side : ℕ) (st : DDAState) : ℚ :=
  if side = 0 then
    ((st.posY : ℚ) - cam.posY + (if sgnq aY = 1 then 0 else 1)) / aY
  else
    ((st.posX : ℚ) - cam.posX + (if sgnq aX = 1 then 0 else 1)) / aX

/-- `column_height = int(height / distance) if distance else 1000`
(`1000 == infinity, roughly`); `height` is the color-buffer height. -/
def columnHeight (H : ℕ) (d : ℚ) : ℤ :=
  if d = 0 then 1000 else truncZ ((H : ℚ) / d)

/-- Start and end rows of the wall strip:
`half_height = height >> 1`, `half_column = column_height >> 1` clamped to
`half_height`, `start = half_height - half_column`,
`end = half_height + half_column`.  Python `>> 1` on ints floors. -/
def stripBounds (H : ℕ) (ch : ℤ) : ℤ × ℤ :=
  let hh : ℤ := Int.fdiv (H : ℤ) 2
  let hc : ℤ := min (Int.fdiv ch 2) hh
  (hh - hc, hh + hc)

/-- Where the wall was hit as a fraction of its width:
`wall_x = (camera_pos[1 - side] + distance * ray_angle[1 - side]) % 1`. -/
def wallXOf (cam : Camera) (aY aX : ℚ) (side : ℕ) (d : ℚ) : ℚ :=
  if side = 0 then fracPart (cam.posX + d * aX) else fracPart (cam.posY + d * aY)

/-- The texture pixel column sampled for a hit:
`tex_x = int(wall_x * tex_w)`, flipped to `tex_w - tex_x - 1` when
`(-1 if side == 1 else 1) * ray_angle[side] < 0` (sign correction so that
walls look consistent from both approach directions).  `aS` is the
`side`-axis component of the ray angle. -/
def texXOf (side : ℕ) (aS : ℚ) (texw : ℕ) (wx : ℚ) : ℤ :=
  let t : ℤ := truncZ (wx * (texw : ℚ))
  if (if side = 1 then (-1 : ℚ) else 1) * aS < 0 then (texw : ℤ) - t - 1 else t

/-- The wall strip of a hit column: texture rows resampled by
`np.linspace(texture_start, texture_end, num=drawn_height, endpoint=False, dtype=int)`
(`value_i = start + i * (stop - start) / num`, truncated to int), sampled
at `texture[tex_ys, tex_x]`, then attenuated by `np.e ** (-distance * .05)`
and clipped to `[0, 255]`.  `expQ` abstracts the host float exponential
`np.e ** ·`. -/
def wallStrip (expQ : ℚ → ℚ) (tex : Texture) (d : ℚ) (ch start en tx : ℤ) :
    List Color :=
  let drawn : ℤ := en - start
  let offset : ℚ := ((ch : ℚ) - (drawn : ℚ)) / 2
  let ratio : ℚ := (tex.h : ℚ) / (ch : ℚ)
  let tStart : ℚ := offset * ratio
  let tEnd : ℚ := (offset + (drawn : ℚ)) * ratio
  let n : ℕ := drawn.toNat
  (List.range n).map fun i : ℕ =>
    shadeColor (tex.pix (truncZ (tStart + (i : ℚ) * ((tEnd - tStart) / (n : ℚ)))).toNat tx.toNat)
      (expQ (-d * (5 / 100)))

/-- `self._distances` precomputed in `resize`:
`height / np.linspace(.001, height, num=height, endpoint=False)` with
`height` the widget height. -/
def distancesTable (h : ℕ) : List ℚ :=
  (List.range h).map fun i : ℕ =>
    (h : ℚ) / (1 / 1000 + (i : ℚ) * ((h : ℚ) - 1 / 1000) / (h : ℚ))

/-- The widget state a `render` call reads: widget dimensions (the color
buffer is `2 * heightW` rows by `widthW` columns), map, camera, wall
textures, their light variants, and the ceiling/floor configuration. -/
structure RState where
  heightW : ℕ
  widthW : ℕ
  map : GameMap
  camera : Camera
  textures : List Texture
  lightTextures : List Texture
  ceiling : Option Texture
  ceilingColor : Color
  floor : Option Texture
  floorColor : Color

/-- The full per-hit painting of one column of the color buffer
(`cast_ray` after the casting loop): wall strip between `start` and `end`,
ceiling rows above, floor rows below (flat colors, or perspective-mapped
textures via the `_distances` table; ceiling reads the table rows in
reverse order). -/
def paintHitColumn (expQ : ℚ → ℚ) (s : RState) (t : ℚ) (side : ℕ)
    (st : DDAState) (texIdx : ℕ) : List Color :=
  let aY := (rayAngle s.camera t).1
  let aX := (rayAngle s.camera t).2
  let d := hitDistance s.camera aY aX side st
  let H : ℕ := 2 * s.heightW
  let ch := columnHeight H d
  let hc : ℤ := min (Int.fdiv ch 2) (Int.fdiv (H : ℤ) 2)
  let start := (stripBounds H ch).1
  let en := (stripBounds H ch).2
  let tex := (if side = 1 then s.textures else s.lightTextures).getD (texIdx - 1) dfltTexture
  let wx := wallXOf s.camera aY aX side d
  let tx := texXOf side (if side = 1 then aX else aY) tex.w wx
  let strip := wallStrip expQ tex d ch start en tx
  if s.ceiling.isNone && s.floor.isNone then
    List.replicate start.toNat s.ceilingColor ++ strip ++
      List.replicate ((H : ℤ) - en).toNat s.floorColor
  else
    let fy : ℚ := if side = 0 then (st.posY : ℚ) + (if aY < 0 then 1 else 0)
                  else (st.posY : ℚ) + wx
    let fx : ℚ := if side = 0 then (st.posX : ℚ) + wx
                  else (st.posX : ℚ) + (if aX < 0 then 1 else 0)
    let dists := ((distancesTable s.heightW).drop hc.toNat).map fun q => q / d
    let tys := dists.map fun q => fracPart (q * fy + (1 - q) * s.camera.posY)
    let txs := dists.map fun q => fracPart (q * fx + (1 - q) * s.camera.posX)
    let ceilRows : List Color :=
      match s.ceiling with
      | some ct => ((tys.zip txs).reverse).map fun p =>
          ct.pix (truncZ (p.1 * (ct.w : ℚ))).toNat (truncZ (p.2 * (ct.h : ℚ))).toNat
      | none => List.replicate start.toNat s.ceilingColor
    let floorRows : List Color :=
      match s.floor with
      | some ft => (tys.zip txs).map fun p =>
          ft.pix (truncZ (p.1 * (ft.w : ℚ))).toNat (truncZ (p.2 * (ft.h : ℚ))).toNat
      | none => List.replicate ((H : ℤ) - en).toNat s.floorColor
    ceilRows ++ strip ++ floorRows

/-- The pre-fill of one buffer column done at the top of `render`:
if neither ceiling nor floor has a texture, the top half is filled with
the ceiling color and the bottom half with the floor color; with only a
ceiling texture missing, just the top half; with only a floor texture
missing, just the bottom half; with both textures present, nothing.
`col` is the column's contents from the previous frame (the backing
storage is reused across frames). -/
def prefillCol (s : RState) (col : List Color) : List Color :=
  (List.range (2 * s.heightW)).map fun r =>
    if s.ceiling.isNone && s.floor.isNone then
      (if r < s.heightW then s.ceilingColor else s.floorColor)
    else if s.ceiling.isNone then
      (if r < s.heightW then s.ceilingColor else col.getD r dfltColor)
    else if s.floor.isNone then
      (if r < s.heightW then col.getD r dfltColor else s.floorColor)
    else col.getD r dfltColor

/-- What one `cast_ray(column)` call contributes: `none` = the numpy
lookup raised `IndexError` (the whole render dies), `some none` = the ray
exhausted its hops with no hit and the column is left untouched,
`some (some rows)` = a hit painted the complete column (wall strip,
ceiling rows, floor rows — every row of the column is overwritten). -/
def columnResult (expQ : ℚ → ℚ) (s : RState) (c : ℕ) :
    Option (Option (List Color)) :=
  let t := columnT s.widthW c
  match (castDDA s.map s.camera t).2 with
  | CastOutcome.indexError => none
  | CastOutcome.noHit => some none
  | CastOutcome.hit side st v => some (some (paintHitColumn expQ s t side st v))

/-- One `render` call over the double-resolution color buffer `_colors`,
represented as a list of `widthW` columns of `2 * heightW` rows: pre-fill,
then cast every column in order.  `none` embeds an uncaught numpy
`IndexError` escaping `render`. -/
def renderColors (expQ : ℚ → ℚ) (s : RState) (prev : List (List Color)) :
    Option (List (List Color)) :=
  if (List.range s.widthW).all fun c => (columnResult expQ s c).isSome then
    some ((List.range s.widthW).map fun c =>
      match columnResult expQ s c with
      | some (some painted) => painted
      | some none => prefillCol s (prev.getD c [])
      | none => [])
  else none

/-- The widget state that `resize` rebuilds: dimensions plus the
per-column ray table `_ray_angles` (other scratch buffers are zeroed or
derived and carry no cross-resize content). -/
structure ResizeState where
  height : ℕ
  width : ℕ
  rayAngles : List (ℚ × ℚ)

/-- `resize(dim)`: store the new dimensions and recompute `_ray_angles`
from the new width alone. -/
def resizeFn (dim : ℕ × ℕ) (_s : ResizeState) : ResizeState :=
  { height := dim.1, width := dim.2, rayAngles := rayAngleTable dim.2 }

/-- Every cell on the map's border (first/last row or column) is a wall.
This is the configuration the raycaster's own example maps use; it is what
keeps the DDA walk inside the grid. -/
def borderWalled (m : GameMap) : Prop :=
  ∀ y, y < m.h → ∀ x, x < m.w →
    (y = 0 ∨ y = m.h - 1 ∨ x = 0 ∨ x = m.w - 1) → m.cell y x ≠ 0

instance (m : GameMap) : Decidable (borderWalled m) := by
  unfold borderWalled; infer_instance

/-- The cell `(y, x)` lies strictly inside the map (not on the border). -/
def interiorCell (m : GameMap) (y x : ℤ) : Prop :=
  1 ≤ y ∧ y < (m.h : ℤ) - 1 ∧ 1 ≤ x ∧ x < (m.w : ℤ) - 1

instance (m : GameMap) (y x : ℤ) : Decidable (interiorCell m y x) := by
  unfold interiorCell; infer_instance

/-- The `y`-coordinate of the wall face the ray hit: the hit cell's row,
shifted by one when the ray steps in the negative direction
(the `(0 if step[side] == 1 else 1)` correction in `cast_ray`). -/
def wallFaceY (aY : ℚ) (st : DDAState) : ℚ :=
  (st.posY : ℚ) + (if sgnq aY = 1 then 0 else 1)

/-- The `x`-coordinate of the wall face the ray hit (side 1), with the
same step-direction correction. -/
def wallFaceX (aX : ℚ) (st : DDAState) : ℚ :=
  (st.posX : ℚ) + (if sgnq aX = 1 then 0 else 1)

/-- The world-space point where the ray met the wall, as `cast_ray`
derives it: on the hit axis the corrected wall face, on the other axis
`camera_pos[1-side] + distance * ray_angle[1-side]` (the quantity whose
fractional part is `wall_x`). -/
def hitPoint (cam : Camera) (aY aX : ℚ) (side : ℕ) (st : DDAState) : ℚ × ℚ :=
  if side = 0 then
    (wallFaceY aY st, cam.posX + hitDistance cam aY aX side st * aX)
  else
    (cam.posY + hitDistance cam aY aX side st * aY, wallFaceX aX st)

/-- The perpendicular world distance of a point from the camera plane:
the component of its displacement from the camera along the view
direction.  For a unit-length direction vector this is the distance `d`
of the spec ("distance from camera to wall measured along the camera's
forward axis projection, not true Euclidean distance"). -/
def perpDistance (cam : Camera) (p : ℚ × ℚ) : ℚ :=
  (p.1 - cam.posY) * cam.dirY + (p.2 - cam.posX) * cam.dirX

/-- A 5×5 map whose row `y = 3` is a full wall (a flat y-facing wall). -/
def mapWallRow : GameMap := ⟨5, 5, fun y _ => if y = 3 then 1 else 0⟩

/-- A 5×5 map whose column `x = 3` is a full wall (a flat x-facing wall). -/
def mapWallCol : GameMap := ⟨5, 5, fun _ x => if x = 3 then 1 else 0⟩

/-- A unit camera facing `+y` with camera plane `(0, 1)`. -/
def camFaceY : Camera := ⟨3/2, 5/2, 1, 0, 0, 1⟩

/-- A unit camera facing `+x` with camera plane `(1, 0)`. -/
def camFaceX : Camera := ⟨3/2, 3/2, 0, 1, 1, 0⟩

/-- The DDA state at which `camFaceY`'s `t = 1` ray hits `mapWallRow`. -/
def stHitRow : DDAState := ⟨3, 4, some (5/2), some (5/2)⟩

/-- The DDA state at which `camFaceX`'s `t = 1` ray hits `mapWallCol`. -/
def stHitCol : DDAState := ⟨2, 3, some (3/2), some (5/2)⟩

/-- A trivial stand-in for the host float exponential (fog factor `1`),
used by the concrete witnesses. -/
def expOne : ℚ → ℚ := fun _ => 1

/-- A solid `(1,1,1)` 1×1 texture used by the concrete witnesses. -/
def texA : Texture := ⟨1, 1, fun _ _ => (1, 1, 1)⟩

/-- A solid `(2,2,2)` 1×1 texture used by the concrete witnesses. -/
def texB : Texture := ⟨1, 1, fun _ _ => (2, 2, 2)⟩

/-- An all-open (all-zero) 3×3 map. -/
def mapOpen3 : GameMap := ⟨3, 3, fun _ _ => 0⟩

/-- A 3×3 map whose border ring is wall `1` and whose center is open. -/
def mapRing3 : GameMap :=
  ⟨3, 3, fun y x => if y = 0 ∨ y = 2 ∨ x = 0 ∨ x = 2 then 1 else 0⟩

/-- A camera at the center of a 3×3 map whose single column's ray has a
zero `x` component: its side accumulator is NaN, the DDA never advances,
and the ray exhausts its hops without a hit. -/
def camStuck : Camera := ⟨3/2, 3/2, 1, 0, 0, 0⟩

/-- A 1-column, 1-row widget over `mapOpen3` with `camStuck`, with both a
ceiling texture and a floor texture configured. -/
def sTex : RState :=
  ⟨1, 1, mapOpen3, camStuck, [texA], [texA], some texA, (0, 0, 0), some texB, (0, 0, 0)⟩

/-- The same widget with no ceiling/floor textures, only flat colors. -/
def sFlat : RState :=
  ⟨1, 1, mapOpen3, camStuck, [texA], [texA], none, (1, 2, 3), none, (4, 5, 6)⟩

/-- A previous-frame buffer holding a marker color `(7,7,7)`. -/
def prevMarked : List (List Color) := [[(7, 7, 7), (7, 7, 7)]]

/-! ## Helper lemmas -/

/-- Reading a `range`-indexed table at an in-range index gives the
generating function's value. -/
theorem getD_range_map {α : Type} (f : ℕ → α) (H r : ℕ) (d : α) (h : r < H) :
    ((List.range H).map f).getD r d = f r := by
  rw [List.getD_eq_getElem?_getD, List.getElem?_map, List.getElem?_range h]
  rfl

/-- A nonnegative distance yields a nonnegative column height. -/
theorem columnHeight_nonneg (H : ℕ) (d : ℚ) (hd : 0 ≤ d) :
    0 ≤ columnHeight H d := by
  unfold columnHeight truncZ
  split_ifs with h0 hneg
  · norm_num
  · exfalso
    have hdpos : 0 < d := lt_of_le_of_ne hd (Ne.symm h0)
    have : (0 : ℚ) ≤ (H : ℚ) / d := div_nonneg (by positivity) hd
    linarith
  · exact Int.floor_nonneg.mpr (div_nonneg (by positivity) hd)

/-- The integer step derived from `np.sign` has absolute value at most 1. -/
theorem sgnq_natAbs_le_one (a : ℚ) : (sgnq a).natAbs ≤ 1 := by
  unfold sgnq
  split_ifs <;> simp


/-- A lookup at an in-grid coordinate succeeds and reads the cell. -/
theorem mapLookup_inGrid (m : GameMap) (y x : ℤ) (h : inGrid m (y, x)) :
    mapLookup m y x = some (m.cell y.toNat x.toNat) := by
  obtain ⟨h1, h2, h3, h4⟩ := h
  simp only at h1 h2 h3 h4
  simp only [mapLookup]
  rw [if_neg (not_lt.mpr h1), if_neg (not_lt.mpr h3), if_pos ⟨h1, h2, h3, h4⟩]

/-- The DDA loop, started in an interior cell with unit steps over a
border-walled map, only ever reads in-grid coordinates. -/
theorem castLoop_accesses_inGrid (m : GameMap) (stepY stepX : ℤ) (dY dX : Option ℚ)
    (hY : stepY.natAbs ≤ 1) (hX : stepX.natAbs ≤ 1) (hb : borderWalled m) :
    ∀ fuel : ℕ, ∀ st : DDAState, interiorCell m st.posY st.posX →
      ∀ q ∈ (castLoop m stepY stepX dY dX fuel st).1, inGrid m q := by
  intro fuel
  induction fuel with
  | zero =>
    intro st _ q hq
    simp [castLoop] at hq
  | succ n ih =>
    intro st hin q hq
    obtain ⟨i1, i2, i3, i4⟩ := hin
    simp only [castLoop] at hq
    generalize hs2 : (ddaStep stepY stepX dY dX st).2 = st2 at hq
    have hstep : (st2.posY = st.posY + stepY ∧ st2.posX = st.posX) ∨
        (st2.posY = st.posY ∧ st2.posX = st.posX + stepX) := by
      rw [← hs2]; unfold ddaStep
      by_cases hlt : oltB st.sY st.sX
      · rw [if_pos hlt]; left; exact ⟨rfl, rfl⟩
      · rw [if_neg hlt]; right; exact ⟨rfl, rfl⟩
    have hgrid : inGrid m (st2.posY, st2.posX) := by
      rcases hstep with ⟨e1, e2⟩ | ⟨e1, e2⟩ <;> rw [e1, e2] <;>
        exact ⟨by omega, by omega, by omega, by omega⟩
    have hml := mapLookup_inGrid m _ _ hgrid
    rw [hml] at hq
    simp only at hq
    by_cases hv : m.cell st2.posY.toNat st2.posX.toNat = 0
    · rw [if_pos hv] at hq
      rcases List.mem_cons.mp hq with he | hrest
      · rw [he]; exact hgrid
      · obtain ⟨g1, g2, g3, g4⟩ := hgrid
        simp only at g1 g2 g3 g4
        have hnotb : ¬(st2.posY.toNat = 0 ∨ st2.posY.toNat = m.h - 1 ∨
            st2.posX.toNat = 0 ∨ st2.posX.toNat = m.w - 1) := by
          intro hbl
          exact hb st2.posY.toNat (by omega) st2.posX.toNat (by omega) hbl hv
        push_neg at hnotb
        obtain ⟨b1, b2, b3, b4⟩ := hnotb
        have hin' : interiorCell m st2.posY st2.posX :=
          ⟨by omega, by omega, by omega, by omega⟩
        exact ih st2 hin' q hrest
    · rw [if_neg hv] at hq
      have he := List.mem_singleton.mp hq
      rw [he]; exact hgrid

/-! ## Claim theorems -/

/-- Claim C3 (amended): the hop budget alone does not keep `cast_ray`
inside the map; what does is a bounding ring of walls.  Amended claim: for
every map whose border cells are all non-zero and every camera whose cell
is strictly inside the map, every map access of the DDA loop of `cast_ray`
uses indices within the map's bounds (for any ray direction and any hop
budget). -/
theorem c3_amended_no_oob_with_wall_ring (m : GameMap) (cam : Camera) (t : ℚ)
    (hb : borderWalled m)
    (hc : interiorCell m (truncZ cam.posY) (truncZ cam.posX)) :
    ∀ q ∈ (castDDA m cam t).1, inGrid m q := by
  unfold castDDA
  exact castLoop_accesses_inGrid m _ _ _ _ (sgnq_natAbs_le_one _)
    (sgnq_natAbs_le_one _) hb HOPS _ hc

/-- Claim C3 witness: on a 3×3 map with a full wall ring and the camera in
the center cell, every coordinate the DDA reads is in the grid. -/
theorem c3_witness :
    borderWalled mapRing3
    ∧ interiorCell mapRing3 (truncZ (3/2 : ℚ)) (truncZ (3/2 : ℚ))
    ∧ ∀ q ∈ (castDDA mapRing3 ⟨3/2, 3/2, 0, 1, 0, 0⟩ 0).1, inGrid mapRing3 q :=
  ⟨by with_unfolding_all decide, by with_unfolding_all decide,
    c3_amended_no_oob_with_wall_ring mapRing3 ⟨3/2, 3/2, 0, 1, 0, 0⟩ 0
      (by with_unfolding_all decide) (by with_unfolding_all decide)⟩

/-- Claim C3 counterexample: the claim as stated (bounded hops imply no
out-of-bounds map read, for *every* map) is false.  On the all-open 3×3
map with the camera inside at `(3/2, 3/2)` looking along `+x`, the second
hop reads `(1, 3)`, outside the grid, and numpy raises `IndexError`. -/
theorem c3_counterexample :
    interiorCell mapOpen3 (truncZ (3/2 : ℚ)) (truncZ (3/2 : ℚ))
    ∧ (castDDA mapOpen3 ⟨3/2, 3/2, 0, 1, 0, 0⟩ 0).1 = [(1, 2), (1, 3)]
    ∧ ¬ inGrid mapOpen3 (1, 3)
    ∧ (castDDA mapOpen3 ⟨3/2, 3/2, 0, 1, 0, 0⟩ 0).2 = CastOutcome.indexError := by
  with_unfolding_all decide

/-- Claim C5: for a hit at nonnegative distance, the wall strip has
height `int(buffer_height / distance)` (`1000` when the distance is zero),
is centered on `half_height`, and its clamped bounds satisfy
`0 ≤ start ≤ end ≤ buffer_height` (the buffer height is the even number
`2 * heightW`). -/
theorem c5_strip_extent_centered_clamped (hW : ℕ) (d : ℚ) (hd : 0 ≤ d) :
    (d = 0 → columnHeight (2 * hW) d = 1000)
    ∧ (0 < d → columnHeight (2 * hW) d = ⌊((2 * hW : ℕ) : ℚ) / d⌋)
    ∧ (stripBounds (2 * hW) (columnHeight (2 * hW) d)).1
        = max ((hW : ℤ) - Int.fdiv (columnHeight (2 * hW) d) 2) 0
    ∧ (stripBounds (2 * hW) (columnHeight (2 * hW) d)).2
        = min ((hW : ℤ) + Int.fdiv (columnHeight (2 * hW) d) 2) (2 * hW)
    ∧ 0 ≤ (stripBounds (2 * hW) (columnHeight (2 * hW) d)).1
    ∧ (stripBounds (2 * hW) (columnHeight (2 * hW) d)).1
        ≤ (stripBounds (2 * hW) (columnHeight (2 * hW) d)).2
    ∧ (stripBounds (2 * hW) (columnHeight (2 * hW) d)).2 ≤ ((2 * hW : ℕ) : ℤ) := by
  have hch := columnHeight_nonneg (2 * hW) d hd
  have hfd : Int.fdiv (columnHeight (2 * hW) d) 2 = columnHeight (2 * hW) d / 2 :=
    Int.fdiv_eq_ediv _ (by omega)
  have hfdH : Int.fdiv ((2 * hW : ℕ) : ℤ) 2 = ((2 * hW : ℕ) : ℤ) / 2 :=
    Int.fdiv_eq_ediv _ (by omega)
  refine ⟨?_, ?_, ?_, ?_, ?_, ?_, ?_⟩
  · intro h0; simp [columnHeight, h0]
  · intro hpos
    have hnn : ¬ ((2 * hW : ℕ) : ℚ) / d < 0 :=
      not_lt.mpr (div_nonneg (by positivity) hd)
    simp only [columnHeight, truncZ, if_neg (ne_of_gt hpos), if_neg hnn]
  all_goals
    simp only [stripBounds, hfd, hfdH]
    push_cast
    omega

/-- Claim C5 witness: buffer height 10, distance 5/2. -/
theorem c5_witness :
    (0 : ℚ) ≤ 5/2
    ∧ (((5:ℚ)/2 = 0 → columnHeight (2 * 5) (5/2) = 1000)
    ∧ (0 < (5:ℚ)/2 → columnHeight (2 * 5) (5/2) = ⌊((2 * 5 : ℕ) : ℚ) / (5/2)⌋)
    ∧ (stripBounds (2 * 5) (columnHeight (2 * 5) (5/2))).1
        = max ((5 : ℤ) - Int.fdiv (columnHeight (2 * 5) (5/2)) 2) 0
    ∧ (stripBounds (2 * 5) (columnHeight (2 * 5) (5/2))).2
        = min ((5 : ℤ) + Int.fdiv (columnHeight (2 * 5) (5/2)) 2) (2 * 5)
    ∧ 0 ≤ (stripBounds (2 * 5) (columnHeight (2 * 5) (5/2))).1
    ∧ (stripBounds (2 * 5) (columnHeight (2 * 5) (5/2))).1
        ≤ (stripBounds (2 * 5) (columnHeight (2 * 5) (5/2))).2
    ∧ (stripBounds (2 * 5) (columnHeight (2 * 5) (5/2))).2 ≤ ((2 * 5 : ℕ) : ℤ)) :=
  ⟨by norm_num, c5_strip_extent_centered_clamped 5 (5/2) (by norm_num)⟩

/-- Claim C6: resizing to another dimension and back reproduces exactly
the per-column ray table the widget had before (the table is recomputed
from the width alone, so the round trip is exact). -/
theorem c6_resize_roundtrip (s : ResizeState) (d' : ℕ × ℕ)
    (hwf : s.rayAngles = rayAngleTable s.width) :
    (resizeFn (s.height, s.width) (resizeFn d' s)).rayAngles = s.rayAngles := by
  simp [resizeFn, hwf]

/-- Claim C6 witness: a 4×3 widget resized to 7×9 and back. -/
theorem c6_witness :
    (⟨4, 3, rayAngleTable 3⟩ : ResizeState).rayAngles = rayAngleTable 3
    ∧ (resizeFn (4, 3) (resizeFn (7, 9) ⟨4, 3, rayAngleTable 3⟩)).rayAngles
      = (⟨4, 3, rayAngleTable 3⟩ : ResizeState).rayAngles :=
  ⟨rfl, c6_resize_roundtrip ⟨4, 3, rayAngleTable 3⟩ (7, 9) rfl⟩

/-- Claim C7: two rays that strike a wall of the same orientation at the
same fractional hit position `wall_x` from opposite approach directions
sample mirrored texture columns: the two `tex_x` values sum to
`tex_w - 1`, i.e. each is the horizontal mirror of the other. -/
theorem c7_texture_flip_mirror (side : ℕ) (aS bS : ℚ) (texw : ℕ) (wx : ℚ)
    (ha : aS < 0) (hb : 0 < bS) :
    texXOf side bS texw wx = (texw : ℤ) - texXOf side aS texw wx - 1 := by
  simp only [texXOf]
  split_ifs <;> first | omega | linarith

/-- Claim C7 witness: side 0, angles `±1`, an 8-wide texture,
`wall_x = 1/4`. -/
theorem c7_witness :
    (-1 : ℚ) < 0 ∧ (0 : ℚ) < 1
    ∧ texXOf 0 1 8 (1/4) = (8 : ℤ) - texXOf 0 (-1) 8 (1/4) - 1 := by
  refine ⟨by norm_num, by norm_num, ?_⟩
  exact c7_texture_flip_mirror 0 (-1) 1 8 (1/4) (by norm_num) (by norm_num)

/-- Claim C8 (amended): integer truncation makes the computed column
height only *weakly* monotone in the distance.  Amended claim: with the
buffer height fixed, a strictly larger positive hit distance yields a
column height less than or equal to (not always strictly less than) that
of the nearer hit. -/
theorem c8_amended_height_antitone (H : ℕ) (d₁ d₂ : ℚ) (h1 : 0 < d₁) (h2 : d₁ ≤ d₂) :
    columnHeight H d₂ ≤ columnHeight H d₁ := by
  have h2' : 0 < d₂ := lt_of_lt_of_le h1 h2
  unfold columnHeight
  rw [if_neg (ne_of_gt h1), if_neg (ne_of_gt h2')]
  unfold truncZ
  have q1 : ¬ (H : ℚ) / d₁ < 0 := not_lt.mpr (div_nonneg (by positivity) h1.le)
  have q2 : ¬ (H : ℚ) / d₂ < 0 := not_lt.mpr (div_nonneg (by positivity) h2'.le)
  rw [if_neg q1, if_neg q2]
  have hdiv : (H : ℚ) / d₂ ≤ (H : ℚ) / d₁ := by gcongr
  exact Int.floor_le_floor hdiv

/-- Claim C8 witness: buffer height 10, distances 11/2 ≤ 13/2. -/
theorem c8_witness :
    (0 : ℚ) < 11/2 ∧ (11/2 : ℚ) ≤ 13/2
    ∧ columnHeight 10 (13/2) ≤ columnHeight 10 (11/2) :=
  ⟨by norm_num, by norm_num, c8_amended_height_antitone 10 (11/2) (13/2) (by norm_num) (by norm_num)⟩

/-- Claim C8 counterexample: strict monotonicity fails.  On a 1×8 map
with a wall in the last cell and a camera looking along `+x`, moving the
camera from `x = 3/2` (hit distance 11/2) back to `x = 1/2` (hit distance
13/2) leaves the computed column height of a height-10 buffer unchanged at
1 — strictly farther, but not strictly smaller. -/
theorem c8_counterexample :
    ((castDDA ⟨1, 8, fun _ x => if x = 7 then 1 else 0⟩ ⟨1/2, 3/2, 0, 1, 0, 0⟩ (-1)).2
       = CastOutcome.hit 1 ⟨0, 7, none, some (13/2)⟩ 1)
    ∧ ((castDDA ⟨1, 8, fun _ x => if x = 7 then 1 else 0⟩ ⟨1/2, 1/2, 0, 1, 0, 0⟩ (-1)).2
       = CastOutcome.hit 1 ⟨0, 7, none, some (15/2)⟩ 1)
    ∧ hitDistance ⟨1/2, 3/2, 0, 1, 0, 0⟩ 0 1 1 ⟨0, 7, none, some (13/2)⟩ = 11/2
    ∧ hitDistance ⟨1/2, 1/2, 0, 1, 0, 0⟩ 0 1 1 ⟨0, 7, none, some (15/2)⟩ = 13/2
    ∧ (11/2 : ℚ) < 13/2
    ∧ ¬ (columnHeight 10 (13/2) < columnHeight 10 (11/2)) := by
  with_unfolding_all decide

/-- Claim C10 (amended): the texture-interpolation ratio
`tex_h / column_height` is only safe when the hit distance does not exceed
the buffer height.  Amended claim: for every hit distance `d` with
`0 ≤ d ≤ buffer_height` (and a positive buffer height), the computed
column height is strictly positive, so the ratio is well defined. -/
theorem c10_amended_column_height_pos (H : ℕ) (d : ℚ) (_hH : 0 < H)
    (hd : 0 ≤ d) (hdH : d ≤ (H : ℚ)) :
    0 < columnHeight H d := by
  unfold columnHeight
  rcases eq_or_lt_of_le hd with h0 | hpos
  · rw [if_pos h0.symm]; norm_num
  · rw [if_neg (ne_of_gt hpos)]
    unfold truncZ
    have hq : (1 : ℚ) ≤ (H : ℚ) / d := (one_le_div hpos).mpr hdH
    rw [if_neg (not_lt.mpr (le_trans zero_le_one hq))]
    have hfl : (1 : ℤ) ≤ ⌊(H : ℚ) / d⌋ := Int.le_floor.mpr (by exact_mod_cast hq)
    omega

/-- Claim C10 witness: buffer height 10, distance 5/2. -/
theorem c10_witness :
    0 < 10 ∧ (0 : ℚ) ≤ 5/2 ∧ (5/2 : ℚ) ≤ (10 : ℕ)
    ∧ 0 < columnHeight 10 (5/2) :=
  ⟨by norm_num, by norm_num, by norm_num,
    c10_amended_column_height_pos 10 (5/2) (by norm_num) (by norm_num) (by norm_num)⟩

/-- Claim C10 counterexample: the claim as stated (column height strictly
positive for *every* positive distance, including those above the buffer
height) is false.  A height-1 widget (buffer height 2) hitting a wall at
distance 5/2 computes `column_height = int(2 / (5/2)) = 0`; the code then
evaluates `tex_h / column_height` and raises `ZeroDivisionError`. -/
theorem c10_counterexample :
    ((castDDA ⟨1, 5, fun _ x => if x = 3 then 1 else 0⟩ ⟨1/2, 1/2, 0, 1, 0, 0⟩ (-1)).2
       = CastOutcome.hit 1 ⟨0, 3, none, some (7/2)⟩ 1)
    ∧ hitDistance ⟨1/2, 1/2, 0, 1, 0, 0⟩ 0 1 1 ⟨0, 3, none, some (7/2)⟩ = 5/2
    ∧ (0 : ℚ) < 5/2
    ∧ (2 : ℚ) < 5/2
    ∧ columnHeight 2 (5/2) = 0 := by
  with_unfolding_all decide

/-- Pre-filling is idempotent: pre-filling a column that was already
pre-filled for the same configuration changes nothing. -/
theorem prefillCol_idem (s : RState) (col : List Color) :
    prefillCol s (prefillCol s col) = prefillCol s col := by
  unfold prefillCol
  apply List.map_congr_left
  intro r hr
  have hrH : r < 2 * s.heightW := List.mem_range.mp hr
  have hgd : ∀ f : ℕ → Color,
      ((List.range (2 * s.heightW)).map f).getD r dfltColor = f r :=
    fun f => getD_range_map f _ r _ hrH
  by_cases hc : s.ceiling.isNone <;> by_cases hf : s.floor.isNone <;>
    by_cases hr2 : r < s.heightW <;>
      simp [hc, hf, hr2, hgd, List.getElem?_range hrH]

/-- Every hit reported by the casting loop has side 0 or side 1 (the
loop body only ever selects one of the two axes). -/
theorem castLoop_hit_side (m : GameMap) (stepY stepX : ℤ) (dY dX : Option ℚ) :
    ∀ fuel : ℕ, ∀ st : DDAState, ∀ side : ℕ, ∀ st' : DDAState, ∀ v : ℕ,
      (castLoop m stepY stepX dY dX fuel st).2 = CastOutcome.hit side st' v →
      side = 0 ∨ side = 1 := by
  intro fuel
  induction fuel with
  | zero =>
    intro st side st' v h
    simp [castLoop] at h
  | succ n ih =>
    intro st side st' v h
    simp only [castLoop] at h
    cases hml : mapLookup m (ddaStep stepY stepX dY dX st).2.posY
        (ddaStep stepY stepX dY dX st).2.posX with
    | none =>
      rw [hml] at h
      simp at h
    | some w =>
      rw [hml] at h
      simp only at h
      by_cases hw : w = 0
      · rw [if_pos hw] at h
        exact ih _ side st' v h
      · rw [if_neg hw] at h
        simp only at h
        injection h with h1 _ _
        rw [← h1]
        unfold ddaStep
        by_cases hlt : oltB st.sY st.sX <;> simp [hlt]

/-- Every hit reported by `cast_ray`'s casting phase has side 0 or 1. -/
theorem castDDA_hit_side (m : GameMap) (cam : Camera) (t : ℚ)
    (side : ℕ) (st : DDAState) (v : ℕ)
    (h : (castDDA m cam t).2 = CastOutcome.hit side st v) :
    side = 0 ∨ side = 1 := by
  unfold castDDA at h
  exact castLoop_hit_side m _ _ _ _ HOPS _ side st v h

/-- Claim C1: for every camera with a unit view direction and an
orthogonal camera plane, every screen column, and every wall hit of the
DDA (on either wall orientation, side 0 or side 1) whose side-axis ray
component is nonzero, the distance `cast_ray` computes — the axis-aligned
side distance corrected by the step direction, never the Euclidean ray
length — equals the perpendicular world distance `d` of the hit point
from the camera plane.  Moreover, when the camera faces the wall head-on
(the off-axis direction component is zero) the computed distance depends
only on the hit wall face and the camera, not on the column's ray angle,
so all columns looking at the same flat wall report the same distance
(no fisheye bowing); this covers y-facing walls (side 0) and x-facing
walls (side 1) alike. -/
theorem c1_distance_eq_perpendicular (m : GameMap) (cam : Camera) (t : ℚ)
    (side : ℕ) (st : DDAState) (v : ℕ)
    (hunit : cam.dirY ^ 2 + cam.dirX ^ 2 = 1)
    (horth : cam.dirY * cam.planeY + cam.dirX * cam.planeX = 0)
    (hhit : (castDDA m cam t).2 = CastOutcome.hit side st v) :
    ((if side = 1 then (rayAngle cam t).2 else (rayAngle cam t).1) ≠ 0 →
      hitDistance cam (rayAngle cam t).1 (rayAngle cam t).2 side st
        = perpDistance cam (hitPoint cam (rayAngle cam t).1 (rayAngle cam t).2 side st))
    ∧ (side = 0 → cam.dirX = 0 →
      hitDistance cam (rayAngle cam t).1 (rayAngle cam t).2 side st
        = ((st.posY : ℚ) + (if sgnq cam.dirY = 1 then 0 else 1) - cam.posY) * cam.dirY)
    ∧ (side = 1 → cam.dirY = 0 →
      hitDistance cam (rayAngle cam t).1 (rayAngle cam t).2 side st
        = ((st.posX : ℚ) + (if sgnq cam.dirX = 1 then 0 else 1) - cam.posX) * cam.dirX) := by
  have e1 : (rayAngle cam t).1 = cam.dirY + t * cam.planeY := rfl
  have e2 : (rayAngle cam t).2 = cam.dirX + t * cam.planeX := rfl
  have hone : (rayAngle cam t).1 * cam.dirY + (rayAngle cam t).2 * cam.dirX = 1 := by
    rw [e1, e2]
    linear_combination hunit + t * horth
  rcases castDDA_hit_side m cam t side st v hhit with hs | hs
  · subst hs
    refine ⟨?_, ?_, ?_⟩
    · intro ha
      have ha' : (rayAngle cam t).1 ≠ 0 := ha
      have hd : hitDistance cam (rayAngle cam t).1 (rayAngle cam t).2 0 st
            * (rayAngle cam t).1
          = ((st.posY : ℚ) + (if sgnq (rayAngle cam t).1 = 1 then 0 else 1))
            - cam.posY := by
        show (((st.posY : ℚ) - cam.posY
            + (if sgnq (rayAngle cam t).1 = 1 then 0 else 1)) / (rayAngle cam t).1)
            * (rayAngle cam t).1 = _
        rw [div_mul_cancel₀ _ ha']
        ring
      show hitDistance cam (rayAngle cam t).1 (rayAngle cam t).2 0 st
        = perpDistance cam
            (wallFaceY (rayAngle cam t).1 st,
             cam.posX + hitDistance cam (rayAngle cam t).1 (rayAngle cam t).2 0 st
               * (rayAngle cam t).2)
      simp only [perpDistance, wallFaceY]
      calc hitDistance cam (rayAngle cam t).1 (rayAngle cam t).2 0 st
          = hitDistance cam (rayAngle cam t).1 (rayAngle cam t).2 0 st
            * ((rayAngle cam t).1 * cam.dirY + (rayAngle cam t).2 * cam.dirX) := by
            rw [hone, mul_one]
        _ = (hitDistance cam (rayAngle cam t).1 (rayAngle cam t).2 0 st
              * (rayAngle cam t).1) * cam.dirY
            + (hitDistance cam (rayAngle cam t).1 (rayAngle cam t).2 0 st
              * (rayAngle cam t).2) * cam.dirX := by ring
        _ = _ := by rw [hd]; ring
    · intro _ hdx
      have hY2 : cam.dirY ^ 2 = 1 := by
        rw [hdx] at hunit
        linarith [hunit]
      have hYne : cam.dirY ≠ 0 := by
        intro h0
        rw [h0] at hY2
        norm_num at hY2
      have hmul : cam.dirY * cam.dirY = 1 := by nlinarith [hY2]
      have hpY : cam.planeY = 0 := by
        rw [hdx] at horth
        rcases mul_eq_zero.mp (by linarith [horth] : cam.dirY * cam.planeY = 0)
          with h0 | h0
        · exact absurd h0 hYne
        · exact h0
      have haY : (rayAngle cam t).1 = cam.dirY := by
        rw [e1, hpY]
        ring
      show ((st.posY : ℚ) - cam.posY
          + (if sgnq (rayAngle cam t).1 = 1 then 0 else 1)) / (rayAngle cam t).1
        = ((st.posY : ℚ) + (if sgnq cam.dirY = 1 then 0 else 1) - cam.posY) * cam.dirY
      rw [haY, div_eq_mul_inv, inv_eq_of_mul_eq_one_right hmul]
      ring
    · intro h
      exact absurd h (by decide)
  · subst hs
    refine ⟨?_, ?_, ?_⟩
    · intro ha
      have ha' : (rayAngle cam t).2 ≠ 0 := ha
      have hd : hitDistance cam (rayAngle cam t).1 (rayAngle cam t).2 1 st
            * (rayAngle cam t).2
          = ((st.posX : ℚ) + (if sgnq (rayAngle cam t).2 = 1 then 0 else 1))
            - cam.posX := by
        show (((st.posX : ℚ) - cam.posX
            + (if sgnq (rayAngle cam t).2 = 1 then 0 else 1)) / (rayAngle cam t).2)
            * (rayAngle cam t).2 = _
        rw [div_mul_cancel₀ _ ha']
        ring
      show hitDistance cam (rayAngle cam t).1 (rayAngle cam t).2 1 st
        = perpDistance cam
            (cam.posY + hitDistance cam (rayAngle cam t).1 (rayAngle cam t).2 1 st
               * (rayAngle cam t).1,
             wallFaceX (rayAngle cam t).2 st)
      simp only [perpDistance, wallFaceX]
      calc hitDistance cam (rayAngle cam t).1 (rayAngle cam t).2 1 st
          = hitDistance cam (rayAngle cam t).1 (rayAngle cam t).2 1 st
            * ((rayAngle cam t).1 * cam.dirY + (rayAngle cam t).2 * cam.dirX) := by
            rw [hone, mul_one]
        _ = (hitDistance cam (rayAngle cam t).1 (rayAngle cam t).2 1 st
              * (rayAngle cam t).1) * cam.dirY
            + (hitDistance cam (rayAngle cam t).1 (rayAngle cam t).2 1 st
              * (rayAngle cam t).2) * cam.dirX := by ring
        _ = _ := by rw [hd]; ring
    · intro h
      exact absurd h (by decide)
    · intro _ hdy
      have hX2 : cam.dirX ^ 2 = 1 := by
        rw [hdy] at hunit
        linarith [hunit]
      have hXne : cam.dirX ≠ 0 := by
        intro h0
        rw [h0] at hX2
        norm_num at hX2
      have hmul : cam.dirX * cam.dirX = 1 := by nlinarith [hX2]
      have hpX : cam.planeX = 0 := by
        rw [hdy] at horth
        rcases mul_eq_zero.mp (by linarith [horth] : cam.dirX * cam.planeX = 0)
          with h0 | h0
        · exact absurd h0 hXne
        · exact h0
      have haX : (rayAngle cam t).2 = cam.dirX := by
        rw [e2, hpX]
        ring
      show ((st.posX : ℚ) - cam.posX
          + (if sgnq (rayAngle cam t).2 = 1 then 0 else 1)) / (rayAngle cam t).2
        = ((st.posX : ℚ) + (if sgnq cam.dirX = 1 then 0 else 1) - cam.posX) * cam.dirX
      rw [haX, div_eq_mul_inv, inv_eq_of_mul_eq_one_right hmul]
      ring

/-- Claim C1 witness: two concrete hits, one on each wall orientation.
`camFaceY` (unit direction `(1,0)`, plane `(0,1)`) hits the flat wall row
`y = 3` of `mapWallRow` on side 0; `camFaceX` (unit direction `(0,1)`,
plane `(1,0)`) hits the flat wall column `x = 3` of `mapWallCol` on
side 1.  Both computed distances equal the perpendicular world distance
of their hit points, and both head-on specializations hold. -/
theorem c1_witness :
    ((castDDA mapWallRow camFaceY 1).2 = CastOutcome.hit 0 stHitRow 1)
    ∧ ((castDDA mapWallCol camFaceX 1).2 = CastOutcome.hit 1 stHitCol 1)
    ∧ (((if (0 : ℕ) = 1 then (rayAngle camFaceY 1).2 else (rayAngle camFaceY 1).1) ≠ 0 →
        hitDistance camFaceY (rayAngle camFaceY 1).1 (rayAngle camFaceY 1).2 0 stHitRow
          = perpDistance camFaceY
              (hitPoint camFaceY (rayAngle camFaceY 1).1 (rayAngle camFaceY 1).2 0 stHitRow))
      ∧ ((0 : ℕ) = 0 → camFaceY.dirX = 0 →
        hitDistance camFaceY (rayAngle camFaceY 1).1 (rayAngle camFaceY 1).2 0 stHitRow
          = ((stHitRow.posY : ℚ) + (if sgnq camFaceY.dirY = 1 then 0 else 1)
              - camFaceY.posY) * camFaceY.dirY)
      ∧ ((0 : ℕ) = 1 → camFaceY.dirY = 0 →
        hitDistance camFaceY (rayAngle camFaceY 1).1 (rayAngle camFaceY 1).2 0 stHitRow
          = ((stHitRow.posX : ℚ) + (if sgnq camFaceY.dirX = 1 then 0 else 1)
              - camFaceY.posX) * camFaceY.dirX))
    ∧ (((if (1 : ℕ) = 1 then (rayAngle camFaceX 1).2 else (rayAngle camFaceX 1).1) ≠ 0 →
        hitDistance camFaceX (rayAngle camFaceX 1).1 (rayAngle camFaceX 1).2 1 stHitCol
          = perpDistance camFaceX
              (hitPoint camFaceX (rayAngle camFaceX 1).1 (rayAngle camFaceX 1).2 1 stHitCol))
      ∧ ((1 : ℕ) = 0 → camFaceX.dirX = 0 →
        hitDistance camFaceX (rayAngle camFaceX 1).1 (rayAngle camFaceX 1).2 1 stHitCol
          = ((stHitCol.posY : ℚ) + (if sgnq camFaceX.dirY = 1 then 0 else 1)
              - camFaceX.posY) * camFaceX.dirY)
      ∧ ((1 : ℕ) = 1 → camFaceX.dirY = 0 →
        hitDistance camFaceX (rayAngle camFaceX 1).1 (rayAngle camFaceX 1).2 1 stHitCol
          = ((stHitCol.posX : ℚ) + (if sgnq camFaceX.dirX = 1 then 0 else 1)
              - camFaceX.posX) * camFaceX.dirX)) := by
  refine ⟨by with_unfolding_all decide, by with_unfolding_all decide, ?_, ?_⟩
  · exact c1_distance_eq_perpendicular mapWallRow camFaceY 1 0 stHitRow 1
      (by norm_num [camFaceY]) (by norm_num [camFaceY]) (by with_unfolding_all decide)
  · exact c1_distance_eq_perpendicular mapWallCol camFaceX 1 1 stHitCol 1
      (by norm_num [camFaceX]) (by norm_num [camFaceX]) (by with_unfolding_all decide)

/-- Claim C9: every pixel of the wall strip is the sampled wall-texture
color attenuated by the fog factor `exp(-distance * 0.05)` (the
exponential is the abstracted host float `expQ`, applied to exactly
`-distance * 5/100`) and clamped into `[0, 255]`, channelwise (the final
`toNat ∘ floor` is the uint8 store of the clipped nonnegative float). -/
theorem c9_fog_attenuation_clamped (expQ : ℚ → ℚ) (tex : Texture) (d : ℚ)
    (ch start en tx : ℤ) (i : ℕ) (hi : i < (en - start).toNat) :
    ∃ ty : ℕ,
      (wallStrip expQ tex d ch start en tx).getD i dfltColor
        = ((⌊min 255 (max 0 (((tex.pix ty tx.toNat).1 : ℚ) * expQ (-d * (5/100))))⌋).toNat,
           (⌊min 255 (max 0 (((tex.pix ty tx.toNat).2.1 : ℚ) * expQ (-d * (5/100))))⌋).toNat,
           (⌊min 255 (max 0 (((tex.pix ty tx.toNat).2.2 : ℚ) * expQ (-d * (5/100))))⌋).toNat) := by
  simp only [wallStrip]
  rw [getD_range_map _ _ _ _ hi]
  exact ⟨_, rfl⟩

/-- Claim C9 witness: strip of height 2 at distance 1 over the solid
`(1,1,1)` texture with the trivial exponential. -/
theorem c9_witness :
    0 < ((2 : ℤ) - 0).toNat
    ∧ ∃ ty : ℕ,
      (wallStrip expOne texA 1 2 0 2 0).getD 0 dfltColor
        = ((⌊min 255 (max 0 (((texA.pix ty (0 : ℤ).toNat).1 : ℚ) * expOne (-1 * (5/100))))⌋).toNat,
           (⌊min 255 (max 0 (((texA.pix ty (0 : ℤ).toNat).2.1 : ℚ) * expOne (-1 * (5/100))))⌋).toNat,
           (⌊min 255 (max 0 (((texA.pix ty (0 : ℤ).toNat).2.2 : ℚ) * expOne (-1 * (5/100))))⌋).toNat) := by
  refine ⟨by norm_num, ?_⟩
  exact c9_fog_attenuation_clamped expOne texA 1 2 0 2 0 0 (by norm_num)

/-- Claim C4: rendering is idempotent.  A second `render` with the same
map, camera, textures and size maps the first frame's buffer to itself:
hit columns are repainted identically (they never read the buffer), and
untouched no-hit columns pass the already-pre-filled contents through
unchanged. -/
theorem c4_render_idempotent (expQ : ℚ → ℚ) (s : RState)
    (b b' : List (List Color))
    (h : renderColors expQ s b = some b') :
    renderColors expQ s b' = some b' := by
  unfold renderColors at h ⊢
  by_cases hall : ((List.range s.widthW).all fun c => (columnResult expQ s c).isSome) = true
  case neg =>
    rw [if_neg hall] at h
    simp at h
  rw [if_pos hall] at h ⊢
  have hb := Option.some.inj h
  refine congrArg some ?_
  rw [← hb]
  apply List.map_congr_left
  intro c hc
  have hcw : c < s.widthW := List.mem_range.mp hc
  cases hcr : columnResult expQ s c with
  | none =>
    exfalso
    have := List.all_eq_true.mp hall c hc
    rw [hcr] at this
    simp at this
  | some o =>
    cases o with
    | some painted => simp [hcr]
    | none =>
      simp only [hcr]
      rw [getD_range_map _ _ _ _ hcw]
      simp only [hcr]
      exact prefillCol_idem s _

/-- Claim C4 witness: the tiny flat-color widget; the second render
reproduces the first frame byte for byte. -/
theorem c4_witness :
    renderColors expOne sFlat prevMarked = some [[(1, 2, 3), (4, 5, 6)]]
    ∧ renderColors expOne sFlat [[(1, 2, 3), (4, 5, 6)]] = some [[(1, 2, 3), (4, 5, 6)]] :=
  ⟨by with_unfolding_all decide,
    c4_render_idempotent expOne sFlat prevMarked [[(1, 2, 3), (4, 5, 6)]]
      (by with_unfolding_all decide)⟩

/-- Claim C2 (amended): the render is only guaranteed to paint a no-hit
column with current-frame ceiling/floor fill when neither a ceiling
texture nor a floor texture is configured (the flat-color configuration,
where `render` pre-fills both halves).  Amended claim: with both textures
absent, a column whose ray exhausts the hop budget without a hit is
painted entirely with the ceiling color above the horizon and the floor
color below it, and the render is not an error. -/
theorem c2_amended_nohit_flat_fill (expQ : ℚ → ℚ) (s : RState)
    (prev b : List (List Color)) (c r : ℕ)
    (hceil : s.ceiling = none) (hfloor : s.floor = none)
    (hr : renderColors expQ s prev = some b)
    (hcw : c < s.widthW)
    (hnh : columnResult expQ s c = some none)
    (hrow : r < 2 * s.heightW) :
    (b.getD c []).getD r dfltColor
      = if r < s.heightW then s.ceilingColor else s.floorColor := by
  unfold renderColors at hr
  by_cases hall : ((List.range s.widthW).all fun c => (columnResult expQ s c).isSome) = true
  case neg =>
    rw [if_neg hall] at hr
    simp at hr
  rw [if_pos hall] at hr
  have hb := Option.some.inj hr
  have hbc : b.getD c [] = prefillCol s (prev.getD c []) := by
    rw [← hb, getD_range_map _ _ _ _ hcw]
    simp [hnh]
  rw [hbc]
  unfold prefillCol
  rw [getD_range_map _ _ _ _ hrow]
  simp [hceil, hfloor]

/-- Claim C2 witness: the flat-color widget paints its no-hit column with
the ceiling color in the top half and the floor color in the bottom
half. -/
theorem c2_witness :
    sFlat.ceiling = none ∧ sFlat.floor = none
    ∧ renderColors expOne sFlat prevMarked = some [[(1, 2, 3), (4, 5, 6)]]
    ∧ columnResult expOne sFlat 0 = some none
    ∧ (([[(1, 2, 3), (4, 5, 6)]] : List (List Color)).getD 0 []).getD 1 dfltColor
        = if 1 < sFlat.heightW then sFlat.ceilingColor else sFlat.floorColor := by
  refine ⟨rfl, rfl, by with_unfolding_all decide, by with_unfolding_all decide, ?_⟩
  exact c2_amended_nohit_flat_fill expOne sFlat prevMarked [[(1, 2, 3), (4, 5, 6)]] 0 1
    rfl rfl (by with_unfolding_all decide) (by with_unfolding_all decide)
    (by with_unfolding_all decide) (by with_unfolding_all decide)

/-- Claim C2 counterexample: the claim as stated ("for every configuration
of ceiling/floor textures") is false.  With both a ceiling texture and a
floor texture configured, `render` pre-fills nothing, a no-hit column is
left untouched, and its pixels keep the previous frame's marker color
`(7,7,7)` — a color that is neither the ceiling color, the floor color,
nor any pixel of either texture. -/
theorem c2_counterexample :
    columnResult expOne sTex 0 = some none
    ∧ renderColors expOne sTex prevMarked = some prevMarked
    ∧ (prevMarked.getD 0 []).getD 0 dfltColor = (7, 7, 7)
    ∧ sTex.ceilingColor ≠ (7, 7, 7) ∧ sTex.floorColor ≠ (7, 7, 7)
    ∧ (∀ i j : ℕ, texA.pix i j ≠ (7, 7, 7))
    ∧ (∀ i j : ℕ, texB.pix i j ≠ (7, 7, 7)) := by
  refine ⟨by with_unfolding_all decide, by with_unfolding_all decide,
    by with_unfolding_all decide, by with_unfolding_all decide,
    by with_unfolding_all decide, ?_, ?_⟩
  · intro i j
    simp only [texA]
    decide
  · intro i j
    simp only [texB]
    decide
